import Mathlib

/-!
# watchTower fact-reconciliation engine: a shallow embedding

This file embeds the core data-reconciliation functions of the watchTower
repository (modules `app/etl/sec_utils.py`, `app/etl/sec_fetch_companyfacts.py`,
`app/etl/external_financials.py`, `ops/run_backfill.py`, `app/core/config.py`)
as executable Lean definitions, and proves theorems about them.

Modelling conventions:
* A Python `dict` is modelled as an insertion-ordered association list
  `List (κ × α)`; `dict.get` is `dfind?`, `dict[k] = v` is `dinsert`
  (overwrite in place, append when fresh), `dict.setdefault` is `dsetdefault`.
* Python `float` values are modelled as `ℚ` (all arithmetic the code performs
  on them is exact field arithmetic on the represented numbers).
* Python `sorted(...)` is modelled by `List.insertionSort` with the
  corresponding lexicographic order (a stable sort, as Python's).
* Python string operations (`.lower()`, `in` as substring, `<` comparison)
  are modelled character-listwise (`pyLower`, `pySubstr`, `strLtB`), matching
  Python's code-point-wise semantics on the ASCII data the code handles.
* `None`-able JSON fields are modelled as `Option` fields; Python truthiness
  tests (`if not fy`, `if end and ...`) are translated explicitly at each site.
-/

/-! ## Python dict primitives -/

section Dict

variable {κ : Type} {α : Type} [DecidableEq κ]

/-- `d.get(k)`: first binding of `k` in the association list. -/
def dfind? (d : List (κ × α)) (k : κ) : Option α :=
  (d.find? (fun p => decide (p.1 = k))).map (·.2)

/-- `d.get(k, v₀)`. -/
def dgetD (d : List (κ × α)) (k : κ) (v₀ : α) : α :=
  (dfind? d k).getD v₀

/-- `k in d`. -/
def dmem (d : List (κ × α)) (k : κ) : Bool :=
  d.any (fun p => decide (p.1 = k))

/-- `d.keys()` (in insertion order). -/
def dkeys (d : List (κ × α)) : List κ :=
  d.map (·.1)

/-- `d[k] = v`: overwrite in place if the key is present, else append. -/
def dinsert (d : List (κ × α)) (k : κ) (v : α) : List (κ × α) :=
  if dmem d k then
    d.map (fun p => if p.1 = k then (k, v) else p)
  else
    d ++ [(k, v)]

/-- `d.setdefault(k, v)`: insert only when the key is absent. -/
def dsetdefault (d : List (κ × α)) (k : κ) (v : α) : List (κ × α) :=
  if dmem d k then d else d ++ [(k, v)]

@[simp] theorem dfind?_nil (k : κ) : dfind? ([] : List (κ × α)) k = none := rfl

theorem dfind?_cons (p : κ × α) (d : List (κ × α)) (k : κ) :
    dfind? (p :: d) k = if p.1 = k then some p.2 else dfind? d k := by
  by_cases h : p.1 = k <;> simp [dfind?, List.find?_cons, h]

@[simp] theorem dmem_nil (k : κ) : dmem ([] : List (κ × α)) k = false := rfl

theorem dmem_cons (p : κ × α) (d : List (κ × α)) (k : κ) :
    dmem (p :: d) k = (decide (p.1 = k) || dmem d k) := by
  simp [dmem]

theorem dfind?_append (d₁ d₂ : List (κ × α)) (k : κ) :
    dfind? (d₁ ++ d₂) k = (dfind? d₁ k).or (dfind? d₂ k) := by
  induction d₁ with
  | nil => simp [Option.or]
  | cons p d ih =>
    rw [List.cons_append, dfind?_cons, dfind?_cons]
    by_cases h : p.1 = k <;> simp [h, ih, Option.or]

theorem dfind?_map_overwrite (d : List (κ × α)) (k k' : κ) (v : α) :
    dfind? (d.map (fun p => if p.1 = k then (k, v) else p)) k' =
      if k' = k then (if dmem d k then some v else none) else dfind? d k' := by
  induction d with
  | nil => by_cases h : k' = k <;> simp [h]
  | cons p d ih =>
    rw [List.map_cons, dfind?_cons, dfind?_cons, dmem_cons]
    by_cases hpk : p.1 = k <;> by_cases hk' : k' = k
    · subst hk'; simp [hpk]
    · have hne : ¬ ((k, v) : κ × α).1 = k' := fun h => hk' h.symm
      have hpq : ¬ p.1 = k' := fun h => hk' (by rw [← h, hpk])
      simp [hpk, hne, hpq, hk', ih]
    · subst hk'; simp [hpk, ih]
    · by_cases hq : p.1 = k' <;> simp [hpk, hk', hq, ih]

theorem dfind?_dinsert (d : List (κ × α)) (k k' : κ) (v : α) :
    dfind? (dinsert d k v) k' = if k' = k then some v else dfind? d k' := by
  unfold dinsert
  by_cases hmem : dmem d k
  · rw [if_pos hmem, dfind?_map_overwrite]
    by_cases hk' : k' = k <;> simp [hk', hmem]
  · rw [if_neg hmem, dfind?_append]
    have hnone : dfind? d k = none := by
      induction d with
      | nil => rfl
      | cons p d ih =>
        rw [dmem_cons] at hmem
        simp only [Bool.or_eq_true, decide_eq_true_eq] at hmem
        push_neg at hmem
        rw [dfind?_cons, if_neg hmem.1]
        exact ih (by simpa using hmem.2)
    by_cases hk' : k' = k
    · subst hk'
      rw [hnone, dfind?_cons]
      simp [Option.or]
    · rw [dfind?_cons]
      have hne : ¬ ((k, v) : κ × α).1 = k' := fun h => hk' h.symm
      rw [if_neg hne, if_neg hk']
      cases dfind? d k' <;> simp [Option.or]

theorem dmem_iff_mem_dkeys (d : List (κ × α)) (k : κ) :
    dmem d k = true ↔ k ∈ dkeys d := by
  unfold dmem dkeys
  rw [List.any_eq_true]
  constructor
  · rintro ⟨p, hp, hpk⟩
    simp only [decide_eq_true_eq] at hpk
    exact hpk ▸ List.mem_map_of_mem _ hp
  · intro h
    obtain ⟨p, hp, hpk⟩ := List.mem_map.mp h
    exact ⟨p, hp, by simp [hpk]⟩

theorem dfind?_isSome_of_mem_dkeys (d : List (κ × α)) (k : κ) (h : k ∈ dkeys d) :
    (dfind? d k).isSome := by
  obtain ⟨p, hp, hpk⟩ := List.mem_map.mp h
  have hsome : (d.find? (fun p => decide (p.1 = k))).isSome := by
    rw [List.find?_isSome]
    exact ⟨p, hp, by simp [hpk]⟩
  obtain ⟨q, hq⟩ := Option.isSome_iff_exists.mp hsome
  simp [dfind?, hq]

theorem mem_dkeys_of_dfind?_isSome (d : List (κ × α)) (k : κ)
    (h : (dfind? d k).isSome) : k ∈ dkeys d := by
  unfold dfind? at h
  obtain ⟨q, hq⟩ : ∃ q, d.find? (fun p => decide (p.1 = k)) = some q := by
    cases hfind : d.find? (fun p => decide (p.1 = k)) with
    | none => rw [hfind] at h; simp at h
    | some q => exact ⟨q, rfl⟩
  have hqmem := List.mem_of_find?_eq_some hq
  have hqk : q.1 = k := by
    have := List.find?_some hq
    simpa using this
  exact hqk ▸ List.mem_map_of_mem _ hqmem

theorem dfind?_eq_none_of_not_mem_dkeys (d : List (κ × α)) (k : κ)
    (h : k ∉ dkeys d) : dfind? d k = none := by
  cases hf : dfind? d k with
  | none => rfl
  | some v =>
    exact absurd (mem_dkeys_of_dfind?_isSome d k (by simp [hf])) h

theorem dfind?_mem (d : List (κ × α)) (k : κ) (v : α) (h : dfind? d k = some v) :
    (k, v) ∈ d := by
  unfold dfind? at h
  obtain ⟨q, hq, hq2⟩ : ∃ q, d.find? (fun p => decide (p.1 = k)) = some q ∧ q.2 = v := by
    cases hfind : d.find? (fun p => decide (p.1 = k)) with
    | none => rw [hfind] at h; simp at h
    | some q => rw [hfind] at h; exact ⟨q, rfl, by simpa using h⟩
  have hqmem := List.mem_of_find?_eq_some hq
  have hqk : q.1 = k := by simpa using List.find?_some hq
  have : q = (k, v) := by
    cases q; simp_all
  exact this ▸ hqmem

theorem dfind?_dsetdefault (d : List (κ × α)) (k k' : κ) (v : α) :
    dfind? (dsetdefault d k v) k' =
      (dfind? d k').or (if k' = k then some v else none) := by
  unfold dsetdefault
  by_cases hmem : dmem d k
  · rw [if_pos hmem]
    by_cases hk' : k' = k
    · subst hk'
      have hsome := dfind?_isSome_of_mem_dkeys d k' ((dmem_iff_mem_dkeys d k').mp hmem)
      obtain ⟨w, hw⟩ := Option.isSome_iff_exists.mp hsome
      simp [hw, Option.or]
    · rw [if_neg hk']
      cases dfind? d k' <;> simp [Option.or]
  · rw [if_neg hmem, dfind?_append, dfind?_cons]
    by_cases hk' : k' = k
    · subst hk'; simp
    · have : ¬ ((k, v).1 = k') := fun h => hk' h.symm
      rw [if_neg this, if_neg hk']
      rfl

end Dict

/-! ## Python string and sort helpers -/

/-- Python `<` on strings: lexicographic comparison of code points. -/
def chLt : List Char → List Char → Bool
  | [], [] => false
  | [], _ :: _ => true
  | _ :: _, [] => false
  | a :: as, b :: bs => if a < b then true else if a = b then chLt as bs else false

/-- Python `a < b` on strings. -/
def strLtB (a b : String) : Bool := chLt a.toList b.toList

/-- Python `a <= b` on strings (total order, so `a <= b ↔ ¬ b < a`). -/
def strLeB (a b : String) : Bool := !(strLtB b a)

/-- ASCII lowercase of one character (`str.lower` on the ASCII tag data). -/
def lowerChar (c : Char) : Char :=
  if 65 ≤ c.toNat ∧ c.toNat ≤ 90 then Char.ofNat (c.toNat + 32) else c

/-- Python `s.lower()` (character-wise; the tag vocabulary is ASCII). -/
def pyLower (s : String) : String := ⟨s.data.map lowerChar⟩

/-- Python `needle in hay` for strings: contiguous-substring containment. -/
def pySubstr (needle hay : String) : Bool := decide (needle.toList <:+: hay.toList)

/-- A fiscal key `(fiscal_year, fiscal_period)`, the tuple key of the
`sec_utils` series maps (annual keys are `(fy, "FY")`). -/
abbrev FKey := ℤ × String

/-- Python tuple comparison `(int, str) <= (int, str)`, lexicographic. -/
def fkeyLeB (a b : FKey) : Bool :=
  decide (a.1 < b.1) || (decide (a.1 = b.1) && strLeB a.2 b.2)

/-- Python `sorted` on fiscal keys (a stable sort, like Python's). -/
def sortFKeys (l : List FKey) : List FKey :=
  l.insertionSort (fun a b => fkeyLeB a b = true)

/-- Python `sorted` on integers. -/
def sortInts (l : List ℤ) : List ℤ :=
  l.insertionSort (fun a b => a ≤ b)

/-- Python `sorted` on strings. -/
def sortStrs (l : List String) : List String :=
  l.insertionSort (fun a b => strLeB a b = true)

theorem mem_sortFKeys {k : FKey} {l : List FKey} : k ∈ sortFKeys l ↔ k ∈ l :=
  List.mem_insertionSort _

theorem mem_sortInts {n : ℤ} {l : List ℤ} : n ∈ sortInts l ↔ n ∈ l :=
  List.mem_insertionSort _

theorem mem_sortStrs {s : String} {l : List String} : s ∈ sortStrs l ↔ s ∈ l :=
  List.mem_insertionSort _

/-! ## Raw facts -/

/-- One raw series element: the JSON dict fields the code reads
(`fy`, `fp`, `val`, `end`), each possibly absent. -/
structure SecFact where
  fy : Option ℤ
  fp : Option String
  val : Option ℚ
  end_ : Option String
deriving DecidableEq

/-! ## Generic fold lemmas for dict-building loops -/

section Folds

variable {κ : Type} {α : Type} [DecidableEq κ]

/-- One step of a `for k in keys: ... if hit: d[k] = v` loop: insert the value
`f k` when there is one. -/
def insertWhen (f : κ → Option α) (m : List (κ × α)) (k : κ) : List (κ × α) :=
  match f k with
  | some v => dinsert m k v
  | none => m

theorem dfind?_foldl_insertWhen (f : κ → Option α) (ks : List κ)
    (acc : List (κ × α)) (k : κ) :
    dfind? (ks.foldl (insertWhen f) acc) k =
      if k ∈ ks ∧ (f k).isSome then f k else dfind? acc k := by
  induction ks generalizing acc with
  | nil => simp
  | cons k₀ rest ih =>
    rw [List.foldl_cons, ih]
    by_cases h1 : k ∈ rest ∧ (f k).isSome
    · rw [if_pos h1, if_pos ⟨List.mem_cons_of_mem _ h1.1, h1.2⟩]
    · rw [if_neg h1]
      unfold insertWhen
      cases hf0 : f k₀ with
      | some v =>
        rw [dfind?_dinsert]
        by_cases hk : k = k₀
        · subst hk
          rw [if_pos rfl, if_pos ⟨List.mem_cons_self _ _, by simp [hf0]⟩, hf0]
        · rw [if_neg hk, if_neg]
          rintro ⟨hmem, hsome⟩
          rcases List.mem_cons.mp hmem with h | h
          · exact hk h
          · exact h1 ⟨h, hsome⟩
      | none =>
        rw [if_neg]
        rintro ⟨hmem, hsome⟩
        rcases List.mem_cons.mp hmem with h | h
        · subst h; rw [hf0] at hsome; simp at hsome
        · exact h1 ⟨h, hsome⟩

/-- A sequence of dict writes `d[k] = v`, in order. -/
def dinsertMany (m : List (κ × α)) (es : List (κ × α)) : List (κ × α) :=
  es.foldl (fun a p => dinsert a p.1 p.2) m

theorem dfind?_dinsertMany (m es : List (κ × α)) (k : κ) :
    dfind? (dinsertMany m es) k = (dfind? es.reverse k).or (dfind? m k) := by
  induction es generalizing m with
  | nil => simp [dinsertMany, Option.or]
  | cons e rest ih =>
    show dfind? (dinsertMany (dinsert m e.1 e.2) rest) k = _
    rw [ih, List.reverse_cons, dfind?_append, dfind?_dinsert, Option.or_assoc]
    congr 1
    rw [dfind?_cons]
    by_cases hk : k = e.1
    · rw [if_pos hk, if_pos hk.symm]
      simp [Option.or]
    · rw [if_neg hk, if_neg (fun h => hk h.symm)]
      simp [Option.or]

end Folds

/-! ## `app/etl/sec_fetch_companyfacts.py` -/

/-- The observation node of one tag: its `"units"` mapping
`{unit: [observation, ...]}`. -/
structure TagNode where
  units : List (String × List SecFact)
deriving DecidableEq

/-- A companyfacts document, reduced to its `facts → us-gaap` mapping
(`cf["facts"]["us-gaap"]`). A missing/empty document or a document without
a `"facts"` key behaves exactly like the empty mapping in every function
below, so it is modelled as the empty mapping. -/
structure CompanyFacts where
  usgaap : List (String × TagNode)
deriving DecidableEq

namespace SecFetch

/-- Preferred unit per tag class. -/
def UNIT_PRIORITY : List (String × List String) :=
  [("_money", ["USD"]), ("_shares", ["shares"])]

/-- Optional per-tag unit preference overrides. -/
def UNIT_BY_TAG : List (String × List String) :=
  [("WeightedAverageNumberOfDilutedSharesOutstanding", ["shares"]),
   ("WeightedAverageNumberOfSharesOutstandingDiluted", ["shares"])]

/-- `_pick_unit(tag, units)`: choose the best unit key for a tag. -/
def _pick_unit (tag : String) (units : List (String × List SecFact)) : Option String :=
  let heuristic :=
    let share_like := pySubstr "Share" tag || pySubstr "Shares" tag || pySubstr "shares" tag
    let pri := dgetD UNIT_PRIORITY (if share_like then "_shares" else "_money") []
    match pri.find? (fun u => dmem units u) with
    | some u => some u
    | none =>
      -- fallback: pick any unit with numeric-like values
      -- (`isinstance(arr, list)` always holds in the model)
      (units.find? (fun p => !p.2.isEmpty)).map (·.1)
  match dfind? UNIT_BY_TAG tag with
  | some ov =>
    -- explicit per-tag override first
    match ov.find? (fun u => dmem units u) with
    | some u => some u
    | none => heuristic
  | none => heuristic

/-- The guard `end and prev.get("end") and end > prev["end"]` (Python
truthiness: an absent or empty end date never wins). -/
def laterEnd (e p : Option String) : Bool :=
  match e, p with
  | some s, some t => !decide (s = "") && !decide (t = "") && chLt t.toList s.toList
  | _, _ => false

/-- One loop iteration of `extract_annual_usd_facts`: skip non-annual or
incomplete observations, and keep the latest end date per fiscal year. The
retained dict entry `{"fy": fy, "val": float(val), "end": end}` is represented
as a `SecFact` with no `"fp"` key. -/
def annStep (out : List (ℤ × SecFact)) (o : SecFact) : List (ℤ × SecFact) :=
  match o.fy, o.fp, o.val with
  | some fy, some fp, some v =>
    if fp = "FY" then
      match dfind? out fy with
      | none => dinsert out fy ⟨some fy, none, some v, o.end_⟩
      | some prev =>
        if laterEnd o.end_ prev.end_ then
          dinsert out fy ⟨some fy, none, some v, o.end_⟩
        else out
    else out
  | _, _, _ => out

/-- `extract_annual_usd_facts(cf, tag)`. -/
def extract_annual_usd_facts (cf : CompanyFacts) (tag : String) : List SecFact :=
  match dfind? cf.usgaap tag with
  | none => []
  | some node =>
    match _pick_unit tag node.units with
    | none => []
    | some unit_key =>
      if unit_key = "" ∨ ¬ dmem node.units unit_key then []
      else
        let out := (dgetD node.units unit_key []).foldl annStep []
        (sortInts (dkeys out)).filterMap (fun y => dfind? out y)

/-- `list_available_tags(cf)`: the sorted us-gaap tag names. -/
def list_available_tags (cf : CompanyFacts) : List String :=
  sortStrs (dkeys cf.usgaap)

/-- Modelled from the spec: `extract_quarterly_usd_facts` is imported by
`app/etl/sec_utils.py` from `app/etl/sec_fetch_companyfacts.py`, but its
definition is not in the source tree. Per spec §4.3 it extracts like the
annual path with the completed-period filter widened to fiscal periods Q1–Q4
or FY (step 3), collapsing duplicates per (fiscal_year, fiscal_period) by
latest reported end date (step 4). This is its per-observation step. -/
def qtrStep (out : List (FKey × SecFact)) (o : SecFact) : List (FKey × SecFact) :=
  match o.fy, o.fp, o.val with
  | some fy, some fp, some v =>
    if fp = "Q1" ∨ fp = "Q2" ∨ fp = "Q3" ∨ fp = "Q4" ∨ fp = "FY" then
      match dfind? out (fy, fp) with
      | none => dinsert out (fy, fp) ⟨some fy, some fp, some v, o.end_⟩
      | some prev =>
        if laterEnd o.end_ prev.end_ then
          dinsert out (fy, fp) ⟨some fy, some fp, some v, o.end_⟩
        else out
    else out
  | _, _, _ => out

/-- Modelled from the spec: quarterly counterpart of
`extract_annual_usd_facts` (see `qtrStep`), sorted ascending by period key. -/
def extract_quarterly_usd_facts (cf : CompanyFacts) (tag : String) : List SecFact :=
  match dfind? cf.usgaap tag with
  | none => []
  | some node =>
    match _pick_unit tag node.units with
    | none => []
    | some unit_key =>
      if unit_key = "" ∨ ¬ dmem node.units unit_key then []
      else
        let out := (dgetD node.units unit_key []).foldl qtrStep []
        (sortFKeys (dkeys out)).filterMap (fun k => dfind? out k)

end SecFetch

/-! ## `app/etl/sec_utils.py` -/

namespace SecUtils

/-- The accumulation dict `tmp` of the quarterly branch of `series_to_map`:
keep Q1–Q4 under their own period, and FY under `"FY"`; skip entries with a
falsy `fy` (`if not fy`) or missing `val`. -/
def buildTmp (series : List SecFact) : List (FKey × ℚ) :=
  series.foldl (fun tmp x =>
    match x.fy, x.val with
    | some fy, some v =>
      if fy = 0 then tmp
      else
        match x.fp with
        | some fp =>
          if fp = "Q1" ∨ fp = "Q2" ∨ fp = "Q3" ∨ fp = "Q4" then dinsert tmp (fy, fp) v
          else if fp = "FY" then dinsert tmp (fy, "FY") v
          else tmp
        | none => tmp
    | _, _ => tmp) []

/-- The sequence of dict writes the quarterly branch performs for one fiscal
year: first the Q4 entry (derived from FY − (Q1+Q2+Q3) when `derive_q4`,
otherwise direct Q4 falling back to FY), then the Q1–Q3 pass-through. -/
def yearEntries (tmp : List (FKey × ℚ)) (derive_q4 : Bool) (fy : ℤ) : List (FKey × ℚ) :=
  (if derive_q4 then
    match dfind? tmp (fy, "FY") with
    | some fy_val =>
      [((fy, "Q4"),
        fy_val - (dgetD tmp (fy, "Q1") 0 + dgetD tmp (fy, "Q2") 0 + dgetD tmp (fy, "Q3") 0))]
    | none => []
  else
    match dfind? tmp (fy, "Q4") with
    | some v => [((fy, "Q4"), v)]
    | none =>
      match dfind? tmp (fy, "FY") with
      | some v => [((fy, "Q4"), v)]
      | none => [])
  ++ (["Q1", "Q2", "Q3"].filterMap (fun q => (dfind? tmp (fy, q)).map (fun v => ((fy, q), v))))

/-- `series_to_map(series, period_type, derive_q4)`: convert a SEC fact
series to `{fiscal_key: value}`. The quarterly branch iterates the set of
fiscal years `{k[0] for k in tmp.keys()}` (modelled as the deduplicated list
of years; the output is a dict, so the iteration order of the set does not
affect any lookup). -/
def series_to_map (series : List SecFact) (period_type : String) (derive_q4 : Bool) :
    List (FKey × ℚ) :=
  if period_type = "annual" then
    -- keep FY values for annual mode (`if x.get("fy") and x.get("val") is not None`)
    series.foldl (fun out x =>
      match x.fy, x.val with
      | some fy, some v => if fy = 0 then out else dinsert out (fy, "FY") v
      | _, _ => out) []
  else
    let tmp := buildTmp series
    let years := ((dkeys tmp).map Prod.fst).dedup
    years.foldl (fun out fy => dinsertMany out (yearEntries tmp derive_q4 fy)) []

/-- The local binding
`extractor = extract_annual_usd_facts if period_type == "annual" else
extract_quarterly_usd_facts` made by `build_tag_maps` and `keyword_fallback`. -/
def extractor_for (cf : CompanyFacts) (period_type : String) (t : String) :
    List SecFact :=
  if period_type = "annual" then SecFetch.extract_annual_usd_facts cf t
  else SecFetch.extract_quarterly_usd_facts cf t

/-- `build_tag_maps(cf, tags, period_type, derive_q4)`:
`{tag: series_to_map(extractor(cf, tag), ...)}` for each candidate tag. -/
def build_tag_maps (cf : CompanyFacts) (tags : List String) (period_type : String)
    (derive_q4 : Bool) : List (String × List (FKey × ℚ)) :=
  tags.map (fun t =>
    (t, series_to_map (extractor_for cf period_type t) period_type derive_q4))

/-- `merge_by_preference(tag_maps, pref)`: for each fiscal period (sorted
union of all keys), take the first tag (by `pref` order) that has a value;
the inner `for t in pref: ... break` loop is `List.findSome?`. The `used`
counters incremented in the loop equal, per tag, the number of sorted keys
that tag wins. -/
def merge_by_preference (tag_maps : List (String × List (FKey × ℚ))) (pref : List String) :
    String × List (FKey × ℚ) :=
  let keys := ((tag_maps.map (fun p => dkeys p.2)).flatten).dedup
  let hit := fun k => pref.findSome? (fun t => dfind? (dgetD tag_maps t []) k)
  let merged := (sortFKeys keys).foldl (insertWhen hit) []
  let winner := fun k => pref.find? (fun t => (dfind? (dgetD tag_maps t []) k).isSome)
  let used := fun t => ((sortFKeys keys).filter (fun k => decide (winner k = some t))).length
  let parts := (pref.filter (fun t => decide (used t ≠ 0))).map
    (fun t => t ++ "(" ++ toString (used t) ++ ")")
  let label :=
    if parts.isEmpty then String.intercalate "+" (pref.take 1)
    else String.intercalate "+" parts
  (label, merged)

/-- `keyword_fallback(cf, required_words, period_type, derive_q4)`: scan the
sorted tag list for the first tag containing every required word
(case-insensitively) whose extracted series is non-empty. -/
def keyword_fallback (cf : CompanyFacts) (required_words : List String)
    (period_type : String) (derive_q4 : Bool) : List (FKey × ℚ) :=
  let tags := SecFetch.list_available_tags cf
  (tags.findSome? (fun t =>
    let t_lower := pyLower t
    if required_words.all (fun w => pySubstr (pyLower w) t_lower) then
      let series := extractor_for cf period_type t
      if series.isEmpty then none
      else some (series_to_map series period_type derive_q4)
    else none)).getD []

/-- `get_series_with_fallback(cf, preferred, keywords, period_type,
derive_q4)`: merge the preferred tags, then (when keywords are configured)
fill the remaining gaps from the keyword fallback via `setdefault`. -/
def get_series_with_fallback (cf : CompanyFacts) (preferred : List String)
    (keywords : List String) (period_type : String) (derive_q4 : Bool) :
    List (FKey × ℚ) :=
  let tag_maps := build_tag_maps cf preferred period_type derive_q4
  let out := (merge_by_preference tag_maps preferred).2
  if keywords.isEmpty then out
  else
    let fallback_map := keyword_fallback cf keywords period_type derive_q4
    fallback_map.foldl (fun o p => dsetdefault o p.1 p.2) out

end SecUtils

/-! ## `ops/run_backfill.py` -/

namespace RunBackfill

/-- `series_to_map(series)`: `{int(x["fy"]): float(x["val"])}` over entries
with both fields present (a dict comprehension, i.e. a loop of inserts). -/
def series_to_map (series : List SecFact) : List (ℤ × ℚ) :=
  series.foldl (fun out x =>
    match x.fy, x.val with
    | some fy, some v => dinsert out fy v
    | _, _ => out) []

/-- `add_series(a_map, b_map)`: elementwise add two FY maps over the union of
their years, missing side → 0. (The source's `(… or 0.0)` guards only falsy
values and is the identity on the numbers stored in these maps.) -/
def add_series (a_map b_map : List (ℤ × ℚ)) : List (ℤ × ℚ) :=
  let years := (dkeys a_map ++ dkeys b_map).dedup
  years.map (fun y => (y, dgetD a_map y 0 + dgetD b_map y 0))

/-- `build_tag_maps(cf, tags)`: `{tag: series_to_map(extract_annual_usd_facts(cf, tag))}`. -/
def build_tag_maps (cf : CompanyFacts) (tags : List String) :
    List (String × List (ℤ × ℚ)) :=
  tags.map (fun t => (t, series_to_map (SecFetch.extract_annual_usd_facts cf t)))

/-- `merge_by_preference(tag_maps, pref)` of `ops/run_backfill.py`: identical
algorithm to the `sec_utils` version, with plain fiscal-year keys. -/
def merge_by_preference (tag_maps : List (String × List (ℤ × ℚ))) (pref : List String) :
    String × List (ℤ × ℚ) :=
  let years := ((tag_maps.map (fun p => dkeys p.2)).flatten).dedup
  let hit := fun y => pref.findSome? (fun t => dfind? (dgetD tag_maps t []) y)
  let merged := (sortInts years).foldl (insertWhen hit) []
  let winner := fun y => pref.find? (fun t => (dfind? (dgetD tag_maps t []) y).isSome)
  let used := fun t => ((sortInts years).filter (fun y => decide (winner y = some t))).length
  let parts := (pref.filter (fun t => decide (used t ≠ 0))).map
    (fun t => t ++ "(" ++ toString (used t) ++ ")")
  let label :=
    if parts.isEmpty then String.intercalate "+" (pref.take 1)
    else String.intercalate "+" parts
  (label, merged)

/-- The aggregate-vs-component-sum choice inlined in `backfill_company`
(cash+STI at step 5, debt at step 6): the summed components replace the
aggregate only when `len(comp_sum_map) > len(aggregate_map)`. -/
def choose_component_sum (agg comp : List (ℤ × ℚ)) : List (ℤ × ℚ) :=
  if comp.length > agg.length then comp else agg

end RunBackfill

/-! ## `app/etl/external_financials.py` and `app/core/config.py` -/

namespace ExternalFinancials

/-- One canonical annual row assembled by `fetch_yahoo_annual`: the per-year
field dict plus the `fiscal_year`, `fiscal_period` and `source` keys the
final loop adds. -/
structure YahooRow where
  fields : List (String × Option ℚ)
  fiscal_year : ℤ
  fiscal_period : String
  source : String
deriving DecidableEq

/-- The final row-building loop of `fetch_yahoo_annual`: every per-year dict
becomes a row with `fiscal_period = "FY"` and `source = "external_yahoo"`. -/
def yahoo_annual_rows (per_year : List (ℤ × List (String × Option ℚ))) : List YahooRow :=
  per_year.map (fun p => ⟨p.2, p.1, "FY", "external_yahoo"⟩)

/-- `_upsert_annual_rows` (ops/run_backfill.py): the `source` column written
for a row is `row.get("source") or "external"`. -/
def upsert_row_source (row : YahooRow) : String :=
  if row.source = "" then "external" else row.source

/-- The `source` value the primary SEC path writes in `backfill_company`
(`"source": "sec"`). -/
def sec_row_source : String := "sec"

end ExternalFinancials

namespace Config

/-- `app/core/config.py`: the effective `sec_user_agent` setting. The class
body declares the field twice; the later declaration wins, so the field
carries the default `"watchTower/0.1 (contact@example.com)"` whenever
`SEC_USER_AGENT` is absent from the environment (model input `none`). -/
def sec_user_agent_setting (env : Option String) : String :=
  env.getD "watchTower/0.1 (contact@example.com)"

/-- `sec_fetch_companyfacts._session`: the `User-Agent` header sent on every
request, `settings.sec_user_agent or "watchTower/0.1 (unknown@unknown)"`. -/
def session_user_agent (sec_user_agent : String) : String :=
  if sec_user_agent = "" then "watchTower/0.1 (unknown@unknown)" else sec_user_agent

end Config

/-! ## Merge-by-preference: lookup characterization -/

section MergeLookup

variable {κ : Type} [DecidableEq κ]

theorem merge_fold_lookup (tag_maps : List (String × List (κ × ℚ))) (pref : List String)
    (sorted : List κ)
    (hcover : ∀ (t : String) (m : List (κ × ℚ)), (t, m) ∈ tag_maps → ∀ k' ∈ dkeys m, k' ∈ sorted)
    (k : κ) :
    dfind? (sorted.foldl
        (insertWhen (fun k' => pref.findSome? (fun t => dfind? (dgetD tag_maps t []) k'))) []) k
      = pref.findSome? (fun t => dfind? (dgetD tag_maps t []) k) := by
  rw [dfind?_foldl_insertWhen]
  cases hhit : pref.findSome? (fun t => dfind? (dgetD tag_maps t []) k) with
  | none => simp [hhit]
  | some v =>
    obtain ⟨t, ht, htv⟩ := List.exists_of_findSome?_eq_some hhit
    have hk : k ∈ sorted := by
      have hsome : (dfind? (dgetD tag_maps t []) k).isSome := by simp [htv]
      have hkm : k ∈ dkeys (dgetD tag_maps t []) := mem_dkeys_of_dfind?_isSome _ _ hsome
      cases hm : dfind? tag_maps t with
      | none =>
        rw [dgetD, hm] at hkm
        simp [dkeys] at hkm
      | some m =>
        have hmem : (t, m) ∈ tag_maps := dfind?_mem _ _ _ hm
        rw [dgetD, hm] at hkm
        exact hcover t m hmem k (by simpa using hkm)
    rw [if_pos ⟨hk, by simp [hhit]⟩]

theorem cover_flatten_dedup (tag_maps : List (String × List (κ × ℚ)))
    (t : String) (m : List (κ × ℚ)) (htm : (t, m) ∈ tag_maps)
    (k : κ) (hk : k ∈ dkeys m) :
    k ∈ ((tag_maps.map (fun p => dkeys p.2)).flatten).dedup := by
  rw [List.mem_dedup, List.mem_flatten]
  exact ⟨dkeys m, List.mem_map_of_mem (fun p => dkeys p.2) htm, hk⟩

/-- The merged dict returned by `sec_utils.merge_by_preference` is, pointwise,
the first preferred tag's value at that key. -/
theorem dfind?_SecUtils_merge (tag_maps : List (String × List (FKey × ℚ)))
    (pref : List String) (k : FKey) :
    dfind? (SecUtils.merge_by_preference tag_maps pref).2 k
      = pref.findSome? (fun t => dfind? (dgetD tag_maps t []) k) := by
  show dfind? ((sortFKeys (((tag_maps.map (fun p => dkeys p.2)).flatten).dedup)).foldl
      (insertWhen (fun k' => pref.findSome? (fun t => dfind? (dgetD tag_maps t []) k'))) []) k
    = _
  exact merge_fold_lookup tag_maps pref _
    (fun t m htm k' hk' => mem_sortFKeys.mpr (cover_flatten_dedup tag_maps t m htm k' hk')) k

/-- Same characterization for the `ops/run_backfill.py` copy. -/
theorem dfind?_RunBackfill_merge (tag_maps : List (String × List (ℤ × ℚ)))
    (pref : List String) (y : ℤ) :
    dfind? (RunBackfill.merge_by_preference tag_maps pref).2 y
      = pref.findSome? (fun t => dfind? (dgetD tag_maps t []) y) := by
  show dfind? ((sortInts (((tag_maps.map (fun p => dkeys p.2)).flatten).dedup)).foldl
      (insertWhen (fun k' => pref.findSome? (fun t => dfind? (dgetD tag_maps t []) k'))) []) y
    = _
  exact merge_fold_lookup tag_maps pref _
    (fun t m htm k' hk' => mem_sortInts.mpr (cover_flatten_dedup tag_maps t m htm k' hk')) y

end MergeLookup

/-- C1: for every mapping of tag names to period-keyed series and every
preference-ordered tag list, `merge_by_preference` (both the `sec_utils` and
the `run_backfill` copy) returns at each period key the value from the
earliest tag in the preference order whose series contains that key (the
first-match `findSome?`); in particular, when no tag before A has the key and
both A and a later B do, the merged value at that key is A's (never B's), no
later tag being consulted. -/
theorem claim_C1_merge_by_preference
    (tag_maps : List (String × List (FKey × ℚ))) (pref : List String) (k : FKey)
    (tag_mapsY : List (String × List (ℤ × ℚ))) (prefY : List String) (y : ℤ) :
    (dfind? (SecUtils.merge_by_preference tag_maps pref).2 k
        = pref.findSome? (fun t => dfind? (dgetD tag_maps t []) k))
    ∧ (dfind? (RunBackfill.merge_by_preference tag_mapsY prefY).2 y
        = prefY.findSome? (fun t => dfind? (dgetD tag_mapsY t []) y))
    ∧ (∀ pre mid post A B a b,
        pref = pre ++ A :: (mid ++ B :: post) →
        (∀ t ∈ pre, dfind? (dgetD tag_maps t []) k = none) →
        dfind? (dgetD tag_maps A []) k = some a →
        dfind? (dgetD tag_maps B []) k = some b →
        dfind? (SecUtils.merge_by_preference tag_maps pref).2 k = some a) := by
  refine ⟨dfind?_SecUtils_merge _ _ _, dfind?_RunBackfill_merge _ _ _, ?_⟩
  intro pre mid post A B a b hpref hpre hA hB
  rw [dfind?_SecUtils_merge, hpref, List.findSome?_append]
  have h1 : (pre.findSome? (fun t => dfind? (dgetD tag_maps t []) k)) = none :=
    List.findSome?_eq_none_iff.mpr hpre
  rw [h1, List.findSome?_cons]
  simp [hA, Option.or]

/-- Witness for C1 at a concrete input: tag "A" precedes tag "B", both have a
value at (2021, FY), and the merged series carries A's value 10, not B's 20. -/
theorem claim_C1_merge_by_preference_witness :
    dfind? (SecUtils.merge_by_preference
        [("A", [((2021, "FY"), 10)]), ("B", [((2021, "FY"), 20), ((2020, "FY"), 8)])]
        ["A", "B"]).2 (2021, "FY") = some 10 :=
  (claim_C1_merge_by_preference
      [("A", [((2021, "FY"), 10)]), ("B", [((2021, "FY"), 20), ((2020, "FY"), 8)])]
      ["A", "B"] (2021, "FY") [] [] 0).2.2
    [] [] [] "A" "B" 10 20 rfl (by simp) (by decide) (by decide)

/-! ## Quarterly `series_to_map`: lookup characterization -/

theorem lookup_fp_entries (tmp : List (FKey × ℚ)) (fy : ℤ) (qs : List String) (q : String) :
    dfind? (qs.filterMap (fun q' => (dfind? tmp (fy, q')).map (fun v => ((fy, q'), v)))) (fy, q)
      = if q ∈ qs then dfind? tmp (fy, q) else none := by
  induction qs with
  | nil => simp
  | cons q₀ rest ih =>
    rw [List.filterMap_cons]
    cases h0 : dfind? tmp (fy, q₀) with
    | none =>
      simp only [Option.map_none']
      rw [ih]
      by_cases hq : q = q₀
      · subst hq
        rw [h0]
        by_cases hq2 : q ∈ rest <;> simp [hq2, h0]
      · simp [List.mem_cons, hq]
    | some v =>
      simp only [Option.map_some']
      rw [dfind?_cons]
      by_cases hq : q = q₀
      · subst hq; simp [h0]
      · have hne : ¬ ((fy, q₀) : FKey) = (fy, q) := by
          intro h
          injection h with _ h2
          exact hq h2.symm
        rw [if_neg hne, ih]
        simp [List.mem_cons, hq]

theorem lookup_fp_entries_ne_year (tmp : List (FKey × ℚ)) (fy y : ℤ) (qs : List String)
    (q : String) (hy : y ≠ fy) :
    dfind? (qs.filterMap (fun q' => (dfind? tmp (fy, q')).map (fun v => ((fy, q'), v)))) (y, q)
      = none := by
  apply dfind?_eq_none_of_not_mem_dkeys
  intro hmem
  obtain ⟨p, hp, hpk⟩ := List.mem_map.mp hmem
  obtain ⟨q', _, hfq⟩ := List.mem_filterMap.mp hp
  cases h0 : dfind? tmp (fy, q') with
  | none => rw [h0] at hfq; simp at hfq
  | some v =>
    rw [h0] at hfq
    simp only [Option.map_some', Option.some.injEq] at hfq
    rw [← hfq] at hpk
    have h1 : fy = y := congrArg Prod.fst hpk
    exact hy h1.symm

theorem yearEntries_year (tmp : List (FKey × ℚ)) (d : Bool) (fy : ℤ) :
    ∀ p ∈ SecUtils.yearEntries tmp d fy, p.1.1 = fy := by
  intro p hp
  unfold SecUtils.yearEntries at hp
  rw [List.mem_append] at hp
  rcases hp with hp | hp
  · split at hp
    · split at hp
      · simp only [List.mem_singleton] at hp; subst hp; rfl
      · simp at hp
    · split at hp
      · simp only [List.mem_singleton] at hp; subst hp; rfl
      · split at hp
        · simp only [List.mem_singleton] at hp; subst hp; rfl
        · simp at hp
  · obtain ⟨q', _, hfq⟩ := List.mem_filterMap.mp hp
    cases h0 : dfind? tmp (fy, q') with
    | none => rw [h0] at hfq; simp at hfq
    | some v =>
      rw [h0] at hfq
      simp only [Option.map_some', Option.some.injEq] at hfq
      rw [← hfq]

theorem dfind?_foldl_blocks (g : ℤ → List (FKey × ℚ))
    (hg : ∀ fy p, p ∈ g fy → p.1.1 = fy)
    (years : List ℤ) (acc : List (FKey × ℚ)) (y : ℤ) (q : String) :
    dfind? (years.foldl (fun out fy => dinsertMany out (g fy)) acc) (y, q)
      = if y ∈ years
        then ((dfind? ((g y).reverse) (y, q)).or (dfind? acc (y, q)))
        else dfind? acc (y, q) := by
  induction years generalizing acc with
  | nil => simp
  | cons fy rest ih =>
    rw [List.foldl_cons, ih]
    have hstep : dfind? (dinsertMany acc (g fy)) (y, q)
        = (dfind? ((g fy).reverse) (y, q)).or (dfind? acc (y, q)) :=
      dfind?_dinsertMany _ _ _
    by_cases hyfy : y = fy
    · subst hyfy
      by_cases hyr : y ∈ rest
      · rw [if_pos hyr, if_pos (List.mem_cons_self _ _), hstep, ← Option.or_assoc,
          Option.or_self]
      · rw [if_neg hyr, if_pos (List.mem_cons_self _ _), hstep]
    · have hnone : dfind? ((g fy).reverse) (y, q) = none := by
        apply dfind?_eq_none_of_not_mem_dkeys
        intro hmem
        obtain ⟨p, hp, hpk⟩ := List.mem_map.mp hmem
        have hyear := hg fy p (List.mem_reverse.mp hp)
        rw [hpk] at hyear
        exact hyfy hyear
      rw [hstep, hnone]
      have hor : (none : Option ℚ).or (dfind? acc (y, q)) = dfind? acc (y, q) := by
        cases dfind? acc (y, q) <;> rfl
      rw [hor]
      by_cases hyr : y ∈ rest
      · rw [if_pos hyr, if_pos (List.mem_cons_of_mem _ hyr)]
      · rw [if_neg hyr, if_neg (by
          intro hc
          rcases List.mem_cons.mp hc with h | h
          · exact hyfy h
          · exact hyr h)]

/-- Pointwise value of the quarterly branch of `sec_utils.series_to_map`:
per year present in `tmp`, the (reversed, last-write-wins) year writes. -/
theorem dfind?_series_to_map_quarterly (series : List SecFact) (pt : String)
    (hpt : pt ≠ "annual") (d : Bool) (y : ℤ) (q : String) :
    dfind? (SecUtils.series_to_map series pt d) (y, q)
      = if y ∈ ((dkeys (SecUtils.buildTmp series)).map Prod.fst).dedup
        then dfind? ((SecUtils.yearEntries (SecUtils.buildTmp series) d y).reverse) (y, q)
        else none := by
  unfold SecUtils.series_to_map
  rw [if_neg hpt]
  rw [dfind?_foldl_blocks (SecUtils.yearEntries (SecUtils.buildTmp series) d)
    (yearEntries_year (SecUtils.buildTmp series) d) _ [] y q]
  by_cases hy : y ∈ ((dkeys (SecUtils.buildTmp series)).map Prod.fst).dedup
  · rw [if_pos hy, if_pos hy, dfind?_nil, Option.or_none]
  · rw [if_neg hy, if_neg hy, dfind?_nil]

theorem yearEntries_rev_q123 (tmp : List (FKey × ℚ)) (d : Bool) (fy : ℤ) (q : String)
    (hq : q = "Q1" ∨ q = "Q2" ∨ q = "Q3") :
    dfind? ((SecUtils.yearEntries tmp d fy).reverse) (fy, q) = dfind? tmp (fy, q) := by
  have hq4 : ¬ ("Q4" : String) = q := by rcases hq with h | h | h <;> subst h <;> decide
  have hmem : q ∈ ["Q3", "Q2", "Q1"] := by rcases hq with h | h | h <;> subst h <;> decide
  unfold SecUtils.yearEntries
  rw [List.reverse_append, dfind?_append, ← List.filterMap_reverse]
  have h123 : dfind? (List.filterMap
      (fun q' => (dfind? tmp (fy, q')).map (fun v => ((fy, q'), v)))
      (["Q1", "Q2", "Q3"] : List String).reverse) (fy, q) = dfind? tmp (fy, q) := by
    rw [show (["Q1", "Q2", "Q3"] : List String).reverse = ["Q3", "Q2", "Q1"] from rfl,
      lookup_fp_entries, if_pos hmem]
  rw [h123]
  split
  · split
    · simp [dfind?_cons, hq4, Option.or_none]
    · simp [Option.or_none]
  · split
    · simp [dfind?_cons, hq4, Option.or_none]
    · split
      · simp [dfind?_cons, hq4, Option.or_none]
      · simp [Option.or_none]

theorem yearEntries_rev_q4_derive (tmp : List (FKey × ℚ)) (fy : ℤ) :
    dfind? ((SecUtils.yearEntries tmp true fy).reverse) (fy, "Q4")
      = (dfind? tmp (fy, "FY")).map
          (fun fv => fv - (dgetD tmp (fy, "Q1") 0 + dgetD tmp (fy, "Q2") 0
            + dgetD tmp (fy, "Q3") 0)) := by
  unfold SecUtils.yearEntries
  rw [List.reverse_append, dfind?_append, ← List.filterMap_reverse]
  have h123 : dfind? (List.filterMap
      (fun q' => (dfind? tmp (fy, q')).map (fun v => ((fy, q'), v)))
      (["Q1", "Q2", "Q3"] : List String).reverse) (fy, "Q4") = none := by
    rw [show (["Q1", "Q2", "Q3"] : List String).reverse = ["Q3", "Q2", "Q1"] from rfl,
      lookup_fp_entries, if_neg (by decide)]
  rw [h123]
  cases hFY : dfind? tmp (fy, "FY") with
  | none => simp [hFY, Option.or]
  | some fv => simp [hFY, dfind?_cons, Option.or]

theorem yearEntries_rev_q4_noderive (tmp : List (FKey × ℚ)) (fy : ℤ) :
    dfind? ((SecUtils.yearEntries tmp false fy).reverse) (fy, "Q4")
      = (dfind? tmp (fy, "Q4")).or (dfind? tmp (fy, "FY")) := by
  unfold SecUtils.yearEntries
  rw [List.reverse_append, dfind?_append, ← List.filterMap_reverse]
  have h123 : dfind? (List.filterMap
      (fun q' => (dfind? tmp (fy, q')).map (fun v => ((fy, q'), v)))
      (["Q1", "Q2", "Q3"] : List String).reverse) (fy, "Q4") = none := by
    rw [show (["Q1", "Q2", "Q3"] : List String).reverse = ["Q3", "Q2", "Q1"] from rfl,
      lookup_fp_entries, if_neg (by decide)]
  rw [h123]
  cases hQ4 : dfind? tmp (fy, "Q4") with
  | some v => simp [hQ4, dfind?_cons, Option.or]
  | none =>
    cases hFY : dfind? tmp (fy, "FY") with
    | none => simp [hQ4, hFY, Option.or]
    | some fv => simp [hQ4, hFY, dfind?_cons, Option.or]

theorem yearEntries_rev_fy (tmp : List (FKey × ℚ)) (d : Bool) (fy : ℤ) :
    dfind? ((SecUtils.yearEntries tmp d fy).reverse) (fy, "FY") = none := by
  unfold SecUtils.yearEntries
  rw [List.reverse_append, dfind?_append, ← List.filterMap_reverse]
  have h123 : dfind? (List.filterMap
      (fun q' => (dfind? tmp (fy, q')).map (fun v => ((fy, q'), v)))
      (["Q1", "Q2", "Q3"] : List String).reverse) (fy, "FY") = none := by
    rw [show (["Q1", "Q2", "Q3"] : List String).reverse = ["Q3", "Q2", "Q1"] from rfl,
      lookup_fp_entries, if_neg (by decide)]
  rw [h123]
  split
  · split
    · simp [dfind?_cons, Option.or]
    · simp [Option.or]
  · split
    · simp [dfind?_cons, Option.or]
    · split
      · simp [dfind?_cons, Option.or]
      · simp [Option.or]

theorem year_mem_of_tmp_key (tmp : List (FKey × ℚ)) (y : ℤ) (q : String)
    (h : (dfind? tmp (y, q)).isSome) :
    y ∈ ((dkeys tmp).map Prod.fst).dedup := by
  have hk := mem_dkeys_of_dfind?_isSome _ _ h
  rw [List.mem_dedup]
  exact List.mem_map.mpr ⟨(y, q), hk, rfl⟩

theorem tmp_none_of_year_not_mem (tmp : List (FKey × ℚ)) (y : ℤ) (q : String)
    (hy : y ∉ ((dkeys tmp).map Prod.fst).dedup) : dfind? tmp (y, q) = none := by
  cases h : dfind? tmp (y, q) with
  | none => rfl
  | some v => exact absurd (year_mem_of_tmp_key tmp y q (by simp [h])) hy

/-- C2: in quarterly mode with Q4 derivation enabled, `series_to_map` derives,
for each fiscal year with an FY entry, Q4 = FY − (Q1+Q2+Q3) (missing quarters
as 0); derives no Q4 for a year without an FY entry; passes Q1–Q3 through
unchanged; and never emits an FY key. (Stated over the accumulated
period-keyed input map `buildTmp series`, i.e. the deduplicated input mixing
Q1–Q4 and FY entries.) -/
theorem claim_C2_quarterly_q4_derivation (series : List SecFact) (y : ℤ) :
    (∀ fv, dfind? (SecUtils.buildTmp series) (y, "FY") = some fv →
      dfind? (SecUtils.series_to_map series "quarterly" true) (y, "Q4")
        = some (fv - (dgetD (SecUtils.buildTmp series) (y, "Q1") 0
            + dgetD (SecUtils.buildTmp series) (y, "Q2") 0
            + dgetD (SecUtils.buildTmp series) (y, "Q3") 0)))
    ∧ (dfind? (SecUtils.buildTmp series) (y, "FY") = none →
        dfind? (SecUtils.series_to_map series "quarterly" true) (y, "Q4") = none)
    ∧ (∀ q, q = "Q1" ∨ q = "Q2" ∨ q = "Q3" →
        dfind? (SecUtils.series_to_map series "quarterly" true) (y, q)
          = dfind? (SecUtils.buildTmp series) (y, q))
    ∧ dfind? (SecUtils.series_to_map series "quarterly" true) (y, "FY") = none := by
  have hpt : ("quarterly" : String) ≠ "annual" := by decide
  refine ⟨?_, ?_, ?_, ?_⟩
  · intro fv hfv
    rw [dfind?_series_to_map_quarterly series _ hpt true y "Q4",
      if_pos (year_mem_of_tmp_key _ y "FY" (by simp [hfv])),
      yearEntries_rev_q4_derive, hfv]
    rfl
  · intro hfv
    by_cases hy : y ∈ ((dkeys (SecUtils.buildTmp series)).map Prod.fst).dedup
    · rw [dfind?_series_to_map_quarterly series _ hpt true y "Q4", if_pos hy,
        yearEntries_rev_q4_derive, hfv]
      rfl
    · rw [dfind?_series_to_map_quarterly series _ hpt true y "Q4", if_neg hy]
  · intro q hq
    by_cases hy : y ∈ ((dkeys (SecUtils.buildTmp series)).map Prod.fst).dedup
    · rw [dfind?_series_to_map_quarterly series _ hpt true y q, if_pos hy,
        yearEntries_rev_q123 _ _ _ _ hq]
    · rw [dfind?_series_to_map_quarterly series _ hpt true y q, if_neg hy,
        tmp_none_of_year_not_mem _ _ _ hy]
  · by_cases hy : y ∈ ((dkeys (SecUtils.buildTmp series)).map Prod.fst).dedup
    · rw [dfind?_series_to_map_quarterly series _ hpt true y "FY", if_pos hy,
        yearEntries_rev_fy]
    · rw [dfind?_series_to_map_quarterly series _ hpt true y "FY", if_neg hy]

/-- The spec's own scenario: quarterly raw series
`{Q1:10, Q2:12, Q3:11, FY:40}` for fiscal year 2020. -/
def c2Series : List SecFact :=
  [⟨some 2020, some "Q1", some 10, none⟩,
   ⟨some 2020, some "Q2", some 12, none⟩,
   ⟨some 2020, some "Q3", some 11, none⟩,
   ⟨some 2020, some "FY", some 40, none⟩]

/-- Witness for C2 on the spec's scenario: the derived quarterly output is
`{Q1:10, Q2:12, Q3:11, Q4:7}` with no FY key. -/
theorem claim_C2_quarterly_q4_derivation_witness :
    dfind? (SecUtils.series_to_map c2Series "quarterly" true) (2020, "Q4") = some 7
    ∧ dfind? (SecUtils.series_to_map c2Series "quarterly" true) (2020, "Q1") = some 10
    ∧ dfind? (SecUtils.series_to_map c2Series "quarterly" true) (2020, "Q2") = some 12
    ∧ dfind? (SecUtils.series_to_map c2Series "quarterly" true) (2020, "Q3") = some 11
    ∧ dfind? (SecUtils.series_to_map c2Series "quarterly" true) (2020, "FY") = none := by
  refine ⟨?_, ?_, ?_, ?_, ?_⟩
  · have h := (claim_C2_quarterly_q4_derivation c2Series 2020).1 40 (by decide)
    rw [h, show dgetD (SecUtils.buildTmp c2Series) (2020, "Q1") 0 = 10 from by decide,
      show dgetD (SecUtils.buildTmp c2Series) (2020, "Q2") 0 = 12 from by decide,
      show dgetD (SecUtils.buildTmp c2Series) (2020, "Q3") 0 = 11 from by decide]
    norm_num
  · rw [(claim_C2_quarterly_q4_derivation c2Series 2020).2.2.1 "Q1" (Or.inl rfl)]
    decide
  · rw [(claim_C2_quarterly_q4_derivation c2Series 2020).2.2.1 "Q2" (Or.inr (Or.inl rfl))]
    decide
  · rw [(claim_C2_quarterly_q4_derivation c2Series 2020).2.2.1 "Q3" (Or.inr (Or.inr rfl))]
    decide
  · exact (claim_C2_quarterly_q4_derivation c2Series 2020).2.2.2

/-- C10: in quarterly mode with Q4 derivation disabled, a directly observed Q4
takes precedence, and otherwise a fiscal year's FY total is emitted as its Q4
value. -/
theorem claim_C10_fy_substituted_as_q4 (series : List SecFact) (y : ℤ) :
    (∀ v, dfind? (SecUtils.buildTmp series) (y, "Q4") = some v →
        dfind? (SecUtils.series_to_map series "quarterly" false) (y, "Q4") = some v)
    ∧ (dfind? (SecUtils.buildTmp series) (y, "Q4") = none →
        ∀ fv, dfind? (SecUtils.buildTmp series) (y, "FY") = some fv →
          dfind? (SecUtils.series_to_map series "quarterly" false) (y, "Q4") = some fv) := by
  have hpt : ("quarterly" : String) ≠ "annual" := by decide
  constructor
  · intro v hv
    rw [dfind?_series_to_map_quarterly series _ hpt false y "Q4",
      if_pos (year_mem_of_tmp_key _ y "Q4" (by simp [hv])),
      yearEntries_rev_q4_noderive, hv]
    rfl
  · intro hq4 fv hfv
    rw [dfind?_series_to_map_quarterly series _ hpt false y "Q4",
      if_pos (year_mem_of_tmp_key _ y "FY" (by simp [hfv])),
      yearEntries_rev_q4_noderive, hq4, hfv]
    rfl

/-- Witness for C10: in the scenario of C2 but with `derive_q4 = False`, the
FY total 40 itself becomes Q4 (no direct Q4 exists); and with a direct Q4
observation of 9 present, the direct value 9 wins over the FY total. -/
theorem claim_C10_fy_substituted_as_q4_witness :
    dfind? (SecUtils.series_to_map c2Series "quarterly" false) (2020, "Q4") = some 40
    ∧ dfind? (SecUtils.series_to_map
        (c2Series ++ [⟨some 2020, some "Q4", some 9, none⟩]) "quarterly" false)
        (2020, "Q4") = some 9 := by
  constructor
  · exact (claim_C10_fy_substituted_as_q4 c2Series 2020).2 (by decide) 40 (by decide)
  · exact (claim_C10_fy_substituted_as_q4
      (c2Series ++ [⟨some 2020, some "Q4", some 9, none⟩]) 2020).1 9 (by decide)

/-! ## Component-sum fallback (C6) -/

theorem dfind?_map_years (years : List ℤ) (f : ℤ → ℚ) (y : ℤ) :
    dfind? (years.map (fun y' => (y', f y'))) y
      = if y ∈ years then some (f y) else none := by
  induction years with
  | nil => simp
  | cons y₀ rest ih =>
    rw [List.map_cons, dfind?_cons]
    by_cases h : y₀ = y
    · subst h; simp
    · rw [if_neg h, ih]
      have h' : ¬ y = y₀ := fun hy => h hy.symm
      simp [List.mem_cons, h']

/-- C6: `add_series` contains exactly the fiscal years present in at least one
component (a year absent from both never appears; a missing side contributes 0
only when the other side is present, via `.get(y, 0.0)` over the union), its
keys are pairwise distinct (so `len` counts covered period keys), and
`backfill_company` replaces the aggregate by the component sum only on
strictly larger coverage, keeping the aggregate on ties. -/
theorem claim_C6_component_sum (a b : List (ℤ × ℚ)) (y : ℤ)
    (agg comp : List (ℤ × ℚ)) :
    (dfind? (RunBackfill.add_series a b) y
        = if y ∈ dkeys a ∨ y ∈ dkeys b then some (dgetD a y 0 + dgetD b y 0) else none)
    ∧ (dkeys (RunBackfill.add_series a b)).Nodup
    ∧ (comp.length > agg.length → RunBackfill.choose_component_sum agg comp = comp)
    ∧ (¬ comp.length > agg.length → RunBackfill.choose_component_sum agg comp = agg) := by
  refine ⟨?_, ?_, ?_, ?_⟩
  · show dfind? (((dkeys a ++ dkeys b).dedup).map
        (fun y' => (y', dgetD a y' 0 + dgetD b y' 0))) y = _
    rw [dfind?_map_years]
    by_cases h : y ∈ dkeys a ∨ y ∈ dkeys b
    · rw [if_pos (by rw [List.mem_dedup, List.mem_append]; exact h), if_pos h]
    · rw [if_neg (by rw [List.mem_dedup, List.mem_append]; exact h), if_neg h]
  · show (dkeys (((dkeys a ++ dkeys b).dedup).map
        (fun y' => (y', dgetD a y' 0 + dgetD b y' 0)))).Nodup
    have hmap : dkeys (((dkeys a ++ dkeys b).dedup).map
        (fun y' => (y', dgetD a y' 0 + dgetD b y' 0))) = (dkeys a ++ dkeys b).dedup := by
      simp only [dkeys, List.map_map]
      rw [show ((fun (x : ℤ × ℚ) => x.1) ∘ fun y' => ((y' : ℤ), dgetD a y' 0 + dgetD b y' 0))
          = id from rfl, List.map_id]
    rw [hmap]
    exact List.nodup_dedup _
  · intro h
    unfold RunBackfill.choose_component_sum
    rw [if_pos h]
  · intro h
    unfold RunBackfill.choose_component_sum
    rw [if_neg h]

/-- Witness for C6 at concrete inputs: the sum of `{2020:3}` and
`{2020:4, 2021:5}` is defined exactly on {2020, 2021} (with 2020 ↦ 7,
2019 absent), a two-year component sum replaces a one-year aggregate, and an
equal-coverage aggregate is kept. -/
theorem claim_C6_component_sum_witness :
    dfind? (RunBackfill.add_series [((2020 : ℤ), (3 : ℚ))]
        [((2020 : ℤ), 4), ((2021 : ℤ), 5)]) 2020 = some 7
    ∧ dfind? (RunBackfill.add_series [((2020 : ℤ), (3 : ℚ))]
        [((2020 : ℤ), 4), ((2021 : ℤ), 5)]) 2019 = none
    ∧ RunBackfill.choose_component_sum [((2020 : ℤ), (1 : ℚ))]
        [((2020 : ℤ), 2), ((2021 : ℤ), 3)] = [((2020 : ℤ), 2), ((2021 : ℤ), 3)]
    ∧ RunBackfill.choose_component_sum [((2020 : ℤ), (1 : ℚ)), ((2021 : ℤ), 2)]
        [((2020 : ℤ), 5), ((2021 : ℤ), 6)]
      = [((2020 : ℤ), 1), ((2021 : ℤ), 2)] := by
  refine ⟨?_, ?_, ?_, ?_⟩
  · rw [(claim_C6_component_sum [((2020 : ℤ), (3 : ℚ))]
        [((2020 : ℤ), 4), ((2021 : ℤ), 5)] 2020 [] []).1,
      if_pos (Or.inl (by decide)),
      show dgetD [((2020 : ℤ), (3 : ℚ))] 2020 0 = 3 from by decide,
      show dgetD [((2020 : ℤ), (4 : ℚ)), ((2021 : ℤ), 5)] 2020 0 = 4 from by decide]
    norm_num
  · rw [(claim_C6_component_sum [((2020 : ℤ), (3 : ℚ))]
        [((2020 : ℤ), 4), ((2021 : ℤ), 5)] 2019 [] []).1,
      if_neg (by decide)]
  · exact (claim_C6_component_sum [] [] 0 [((2020 : ℤ), (1 : ℚ))]
      [((2020 : ℤ), 2), ((2021 : ℤ), 3)]).2.2.1 (by decide)
  · exact (claim_C6_component_sum [] [] 0 [((2020 : ℤ), (1 : ℚ)), ((2021 : ℤ), 2)]
      [((2020 : ℤ), 5), ((2021 : ℤ), 6)]).2.2.2 (by decide)

/-! ## Per-tag extractor restatement dedup (C7) -/

/-- An observation the annual extractor keeps for fiscal year `y`
(`fy == y`, `fp == "FY"`, `val` present). -/
def qualFY (y : ℤ) (o : SecFact) : Bool :=
  decide (o.fy = some y) && decide (o.fp = some "FY") && o.val.isSome

theorem annStep_lookup_of_not_qual (acc : List (ℤ × SecFact)) (o : SecFact) (y : ℤ)
    (h : qualFY y o = false) :
    dfind? (SecFetch.annStep acc o) y = dfind? acc y := by
  obtain ⟨ofy, ofp, oval, oend⟩ := o
  unfold qualFY at h
  simp only [Bool.and_eq_false_imp, Bool.and_eq_true, decide_eq_true_eq] at h
  cases ofy with
  | none => rfl
  | some fy =>
    cases ofp with
    | none => rfl
    | some fp =>
      cases oval with
      | none =>
        unfold SecFetch.annStep
        by_cases hfp : fp = "FY" <;> simp [hfp]
      | some v =>
        unfold SecFetch.annStep
        simp only []
        by_cases hfp : fp = "FY"
        · rw [if_pos hfp]
          have hfyne : ¬ fy = y := by
            intro hc
            subst hc; subst hfp
            simp at h
          split
          · rw [dfind?_dinsert, if_neg (fun hc => hfyne hc.symm)]
          · split
            · rw [dfind?_dinsert, if_neg (fun hc => hfyne hc.symm)]
            · rfl
        · rw [if_neg hfp]

theorem annStep_lookup_qual (acc : List (ℤ × SecFact)) (o : SecFact) (y : ℤ) (v : ℚ)
    (hfy : o.fy = some y) (hfp : o.fp = some "FY") (hval : o.val = some v) :
    dfind? (SecFetch.annStep acc o) y
      = match dfind? acc y with
        | none => some ⟨some y, none, some v, o.end_⟩
        | some prev =>
          if SecFetch.laterEnd o.end_ prev.end_ then some ⟨some y, none, some v, o.end_⟩
          else some prev := by
  obtain ⟨ofy, ofp, oval, oend⟩ := o
  simp only at hfy hfp hval
  subst hfy; subst hfp; subst hval
  unfold SecFetch.annStep
  simp only [if_true]
  split
  · rw [dfind?_dinsert, if_pos rfl]
  · rename_i prev heq
    by_cases hl : SecFetch.laterEnd oend prev.end_ = true
    · rw [if_pos hl, if_pos hl, dfind?_dinsert, if_pos rfl]
    · rw [if_neg hl, if_neg hl]
      exact heq

theorem annFold_lookup_congr (l : List SecFact) (acc1 acc2 : List (ℤ × SecFact)) (y : ℤ)
    (h : dfind? acc1 y = dfind? acc2 y) :
    dfind? (l.foldl SecFetch.annStep acc1) y = dfind? (l.foldl SecFetch.annStep acc2) y := by
  induction l generalizing acc1 acc2 with
  | nil => exact h
  | cons o rest ih =>
    rw [List.foldl_cons, List.foldl_cons]
    apply ih
    cases hq : qualFY y o with
    | false => rw [annStep_lookup_of_not_qual _ _ _ hq, annStep_lookup_of_not_qual _ _ _ hq, h]
    | true =>
      have hq' := hq
      unfold qualFY at hq'
      simp only [Bool.and_eq_true, decide_eq_true_eq] at hq'
      obtain ⟨⟨hfy, hfp⟩, hval⟩ := hq'
      obtain ⟨v, hv⟩ := Option.isSome_iff_exists.mp hval
      rw [annStep_lookup_qual _ _ _ v hfy hfp hv, annStep_lookup_qual _ _ _ v hfy hfp hv, h]

theorem annFold_filter (l : List SecFact) (acc : List (ℤ × SecFact)) (y : ℤ) :
    dfind? (l.foldl SecFetch.annStep acc) y
      = dfind? ((l.filter (qualFY y)).foldl SecFetch.annStep acc) y := by
  induction l generalizing acc with
  | nil => rfl
  | cons o rest ih =>
    rw [List.foldl_cons, List.filter_cons]
    cases hq : qualFY y o with
    | true => rw [if_pos rfl, List.foldl_cons, ih]
    | false =>
      rw [if_neg (by simp)]
      rw [ih]
      exact annFold_lookup_congr _ _ _ _ (annStep_lookup_of_not_qual _ _ _ hq)

theorem annFold_absorb (l2 : List SecFact) (acc : List (ℤ × SecFact)) (y : ℤ) (e : SecFact)
    (hacc : dfind? acc y = some e)
    (h : ∀ o ∈ l2, SecFetch.laterEnd o.end_ e.end_ = false) :
    dfind? (l2.foldl SecFetch.annStep acc) y = some e := by
  induction l2 generalizing acc with
  | nil => exact hacc
  | cons o rest ih =>
    rw [List.foldl_cons]
    apply ih
    · cases hq : qualFY y o with
      | false => rw [annStep_lookup_of_not_qual _ _ _ hq, hacc]
      | true =>
        have hq' := hq
        unfold qualFY at hq'
        simp only [Bool.and_eq_true, decide_eq_true_eq] at hq'
        obtain ⟨⟨hfy, hfp⟩, hval⟩ := hq'
        obtain ⟨v, hv⟩ := Option.isSome_iff_exists.mp hval
        rw [annStep_lookup_qual _ _ _ v hfy hfp hv, hacc]
        simp only []
        rw [if_neg (by rw [h o (List.mem_cons_self _ _)]; simp)]
    · exact fun o' h' => h o' (List.mem_cons_of_mem _ h')

/-- The retained entry's end date lies strictly below `E` (and is a truthy
string). -/
def EndBelow (E : String) (e : SecFact) : Prop :=
  ∃ s, e.end_ = some s ∧ s ≠ "" ∧ chLt s.toList E.toList = true

theorem annFold_below (l1 : List SecFact) (acc : List (ℤ × SecFact)) (y : ℤ) (E : String)
    (hacc : dfind? acc y = none ∨ ∃ e, dfind? acc y = some e ∧ EndBelow E e)
    (hl1 : ∀ o ∈ l1, ∃ s, o.end_ = some s ∧ s ≠ "" ∧ chLt s.toList E.toList = true) :
    dfind? (l1.foldl SecFetch.annStep acc) y = none
      ∨ ∃ e, dfind? (l1.foldl SecFetch.annStep acc) y = some e ∧ EndBelow E e := by
  induction l1 generalizing acc with
  | nil => exact hacc
  | cons o rest ih =>
    rw [List.foldl_cons]
    apply ih
    · cases hq : qualFY y o with
      | false =>
        rw [annStep_lookup_of_not_qual _ _ _ hq]
        exact hacc
      | true =>
        have hq' := hq
        unfold qualFY at hq'
        simp only [Bool.and_eq_true, decide_eq_true_eq] at hq'
        obtain ⟨⟨hfy, hfp⟩, hval⟩ := hq'
        obtain ⟨v, hv⟩ := Option.isSome_iff_exists.mp hval
        obtain ⟨s, hs, hsne, hslt⟩ := hl1 o (List.mem_cons_self _ _)
        rw [annStep_lookup_qual _ _ _ v hfy hfp hv]
        rcases hacc with hnone | ⟨e, he, heb⟩
        · rw [hnone]
          exact Or.inr ⟨_, rfl, ⟨s, hs, hsne, hslt⟩⟩
        · rw [he]
          simp only []
          by_cases hl : SecFetch.laterEnd o.end_ e.end_
          · rw [if_pos hl]
            exact Or.inr ⟨_, rfl, ⟨s, hs, hsne, hslt⟩⟩
          · rw [if_neg hl]
            exact Or.inr ⟨e, rfl, heb⟩
    · exact fun o' h' => hl1 o' (List.mem_cons_of_mem _ h')

theorem annFold_winner (l : List SecFact) (y : ℤ) (l1 : List SecFact) (o : SecFact)
    (l2 : List SecFact) (v : ℚ) (E : String)
    (hfilter : l.filter (qualFY y) = l1 ++ o :: l2)
    (hval : o.val = some v) (hend : o.end_ = some E) (hE : E ≠ "")
    (hl1 : ∀ o' ∈ l1, ∃ s, o'.end_ = some s ∧ s ≠ "" ∧ chLt s.toList E.toList = true)
    (hl2 : ∀ o' ∈ l2, SecFetch.laterEnd o'.end_ (some E) = false) :
    dfind? (l.foldl SecFetch.annStep []) y = some ⟨some y, none, some v, some E⟩ := by
  have hoq : qualFY y o = true := by
    have hmem : o ∈ l.filter (qualFY y) := by
      rw [hfilter]
      exact List.mem_append_right _ (List.mem_cons_self _ _)
    exact List.of_mem_filter hmem
  have hoq' := hoq
  unfold qualFY at hoq'
  simp only [Bool.and_eq_true, decide_eq_true_eq] at hoq'
  obtain ⟨⟨hfy, hfp⟩, _⟩ := hoq'
  rw [annFold_filter, hfilter, List.foldl_append, List.foldl_cons]
  have hbelow := annFold_below l1 [] y E (Or.inl (by rfl)) hl1
  have hstep : dfind? (SecFetch.annStep (l1.foldl SecFetch.annStep []) o) y
      = some ⟨some y, none, some v, some E⟩ := by
    rcases hbelow with hnone | ⟨e, he, s, hs, hsne, hslt⟩
    · rw [annStep_lookup_qual _ _ _ v hfy hfp hval, hnone, hend]
    · rw [annStep_lookup_qual _ _ _ v hfy hfp hval, he]
      simp only []
      have hlater : SecFetch.laterEnd o.end_ e.end_ = true := by
        rw [hend, hs]
        unfold SecFetch.laterEnd
        simp only [Bool.and_eq_true, Bool.not_eq_true', decide_eq_false_iff_not]
        exact ⟨⟨hE, hsne⟩, hslt⟩
      rw [if_pos hlater, hend]
  exact annFold_absorb l2 _ y _ hstep (fun o' h' => hl2 o' h')

theorem mem_dinsert {κ : Type} {α : Type} [DecidableEq κ] (d : List (κ × α)) (k : κ)
    (v : α) (p : κ × α) (h : p ∈ dinsert d k v) : p ∈ d ∨ p = (k, v) := by
  unfold dinsert at h
  split at h
  · obtain ⟨q, hq, hqp⟩ := List.mem_map.mp h
    by_cases hk : q.1 = k
    · rw [if_pos hk] at hqp
      exact Or.inr hqp.symm
    · rw [if_neg hk] at hqp
      exact Or.inl (hqp ▸ hq)
  · rcases List.mem_append.mp h with h | h
    · exact Or.inl h
    · exact Or.inr (List.mem_singleton.mp h)

theorem annFold_entry_fy (l : List SecFact) (acc : List (ℤ × SecFact))
    (hinv : ∀ p ∈ acc, p.2.fy = some p.1) :
    ∀ p ∈ l.foldl SecFetch.annStep acc, p.2.fy = some p.1 := by
  induction l generalizing acc with
  | nil => exact hinv
  | cons o rest ih =>
    rw [List.foldl_cons]
    apply ih
    intro p hp
    obtain ⟨ofy, ofp, oval, oend⟩ := o
    unfold SecFetch.annStep at hp
    cases ofy with
    | none => exact hinv p hp
    | some fy =>
      cases ofp with
      | none => exact hinv p hp
      | some fp =>
        cases oval with
        | none => exact hinv p hp
        | some v =>
          simp only [] at hp
          by_cases hfp : fp = "FY"
          · rw [if_pos hfp] at hp
            split at hp
            · rcases mem_dinsert _ _ _ _ hp with h | h
              · exact hinv p h
              · rw [h]
            · split at hp
              · rcases mem_dinsert _ _ _ _ hp with h | h
                · exact hinv p h
                · rw [h]
              · exact hinv p hp
          · rw [if_neg hfp] at hp
            exact hinv p hp

theorem extract_annual_eq_of (cf : CompanyFacts) (tag : String) (node : TagNode)
    (u : String) (obss : List SecFact)
    (h1 : dfind? cf.usgaap tag = some node)
    (h2 : SecFetch._pick_unit tag node.units = some u)
    (h3 : ¬ u = "")
    (h4 : dfind? node.units u = some obss) :
    SecFetch.extract_annual_usd_facts cf tag
      = (sortInts (dkeys (obss.foldl SecFetch.annStep []))).filterMap
          (fun y => dfind? (obss.foldl SecFetch.annStep []) y) := by
  have hmem : dmem node.units u := by
    rw [dmem_iff_mem_dkeys]
    exact mem_dkeys_of_dfind?_isSome _ _ (by simp [h4])
  have hobss : dgetD node.units u [] = obss := by
    rw [dgetD, h4]
    rfl
  unfold SecFetch.extract_annual_usd_facts
  rw [h1]
  simp only []
  rw [h2]
  simp only []
  rw [if_neg (by
    push_neg
    exact ⟨h3, by simp [hmem]⟩)]
  rw [hobss]

theorem mem_extract_annual_iff (cf : CompanyFacts) (tag : String) (node : TagNode)
    (u : String) (obss : List SecFact)
    (h1 : dfind? cf.usgaap tag = some node)
    (h2 : SecFetch._pick_unit tag node.units = some u)
    (h3 : ¬ u = "")
    (h4 : dfind? node.units u = some obss) (e : SecFact) :
    e ∈ SecFetch.extract_annual_usd_facts cf tag
      ↔ ∃ y, dfind? (obss.foldl SecFetch.annStep []) y = some e := by
  rw [extract_annual_eq_of cf tag node u obss h1 h2 h3 h4, List.mem_filterMap]
  constructor
  · rintro ⟨y, _, he⟩
    exact ⟨y, he⟩
  · rintro ⟨y, he⟩
    refine ⟨y, mem_sortInts.mpr (mem_dkeys_of_dfind?_isSome _ _ (by simp [he])), he⟩

/-- C7: when a tag's node holds several qualifying annual observations for
the same fiscal year, the extractor keeps exactly one entry for that year:
the value of the observation whose reported end date beats every other
qualifying observation — strictly later than every earlier one, and not
beaten by any later one (so on equal end dates the first encountered is
kept); the kept entry is the winner's value, never an average. -/
theorem claim_C7_latest_end_wins (cf : CompanyFacts) (tag : String) (node : TagNode)
    (u : String) (obss : List SecFact) (y : ℤ) (l1 : List SecFact) (o : SecFact)
    (l2 : List SecFact) (v : ℚ) (E : String)
    (h1 : dfind? cf.usgaap tag = some node)
    (h2 : SecFetch._pick_unit tag node.units = some u)
    (h3 : ¬ u = "")
    (h4 : dfind? node.units u = some obss)
    (hfilter : obss.filter (qualFY y) = l1 ++ o :: l2)
    (hval : o.val = some v) (hend : o.end_ = some E) (hE : E ≠ "")
    (hl1 : ∀ o' ∈ l1, ∃ s, o'.end_ = some s ∧ s ≠ "" ∧ chLt s.toList E.toList = true)
    (hl2 : ∀ o' ∈ l2, SecFetch.laterEnd o'.end_ (some E) = false) :
    (⟨some y, none, some v, some E⟩ : SecFact) ∈ SecFetch.extract_annual_usd_facts cf tag
    ∧ ∀ e ∈ SecFetch.extract_annual_usd_facts cf tag, e.fy = some y →
        e = ⟨some y, none, some v, some E⟩ := by
  have hwin := annFold_winner obss y l1 o l2 v E hfilter hval hend hE hl1 hl2
  constructor
  · exact (mem_extract_annual_iff cf tag node u obss h1 h2 h3 h4 _).mpr ⟨y, hwin⟩
  · intro e he hefy
    obtain ⟨y', hy'⟩ := (mem_extract_annual_iff cf tag node u obss h1 h2 h3 h4 _).mp he
    have hfy' : e.fy = some y' :=
      annFold_entry_fy obss [] (by simp) (y', e) (dfind?_mem _ _ _ hy')
    have hyy : y' = y := by
      rw [hfy'] at hefy
      exact (Option.some.injEq _ _).mp hefy
    subst hyy
    rw [hy'] at hwin
    exact (Option.some.injEq _ _).mp hwin.symm |>.symm

/-- The restatement scenario of the spec (two observations for
(NetIncomeLoss, FY2021), end dates 2022-02-01 and 2022-03-15). -/
def c7Node : TagNode :=
  ⟨[("USD",
     [⟨some 2021, some "FY", some 100, some "2022-02-01"⟩,
      ⟨some 2021, some "FY", some 110, some "2022-03-15"⟩])]⟩

/-- A tie scenario: two observations with the same end date. -/
def c7NodeTie : TagNode :=
  ⟨[("USD",
     [⟨some 2021, some "FY", some 100, some "2022-03-15"⟩,
      ⟨some 2021, some "FY", some 110, some "2022-03-15"⟩])]⟩

/-- Witness for C7: the extractor keeps the 2022-03-15 restatement value 110,
and on an end-date tie it keeps the first-encountered value 100. -/
theorem claim_C7_latest_end_wins_witness :
    ((⟨some 2021, none, some 110, some "2022-03-15"⟩ : SecFact)
      ∈ SecFetch.extract_annual_usd_facts ⟨[("NetIncomeLoss", c7Node)]⟩ "NetIncomeLoss")
    ∧ ((⟨some 2021, none, some 100, some "2022-03-15"⟩ : SecFact)
      ∈ SecFetch.extract_annual_usd_facts ⟨[("NetIncomeLoss", c7NodeTie)]⟩ "NetIncomeLoss") := by
  constructor
  · exact (claim_C7_latest_end_wins ⟨[("NetIncomeLoss", c7Node)]⟩ "NetIncomeLoss" c7Node
      "USD" [⟨some 2021, some "FY", some 100, some "2022-02-01"⟩,
             ⟨some 2021, some "FY", some 110, some "2022-03-15"⟩]
      2021 [⟨some 2021, some "FY", some 100, some "2022-02-01"⟩]
      ⟨some 2021, some "FY", some 110, some "2022-03-15"⟩ [] 110 "2022-03-15"
      (by decide) (by decide) (by decide) (by decide) (by decide) rfl rfl (by decide)
      (by
        intro o' h'
        rw [List.mem_singleton] at h'
        subst h'
        exact ⟨"2022-02-01", rfl, by decide, by decide⟩)
      (by intro o' h'; simp at h')).1
  · exact (claim_C7_latest_end_wins ⟨[("NetIncomeLoss", c7NodeTie)]⟩ "NetIncomeLoss" c7NodeTie
      "USD" [⟨some 2021, some "FY", some 100, some "2022-03-15"⟩,
             ⟨some 2021, some "FY", some 110, some "2022-03-15"⟩]
      2021 []
      ⟨some 2021, some "FY", some 100, some "2022-03-15"⟩
      [⟨some 2021, some "FY", some 110, some "2022-03-15"⟩] 100 "2022-03-15"
      (by decide) (by decide) (by decide) (by decide) (by decide) rfl rfl (by decide)
      (by intro o' h'; simp at h')
      (by
        intro o' h'
        rw [List.mem_singleton] at h'
        subst h'
        decide)).1

/-! ## Keyword fallback gap-filling (C3) -/

theorem dfind?_foldl_dsetdefault {κ : Type} {α : Type} [DecidableEq κ]
    (fb : List (κ × α)) (o : List (κ × α)) (k : κ) :
    dfind? (fb.foldl (fun o p => dsetdefault o p.1 p.2) o) k
      = (dfind? o k).or (dfind? fb k) := by
  induction fb generalizing o with
  | nil => simp [Option.or_none]
  | cons p rest ih =>
    rw [List.foldl_cons, ih, dfind?_dsetdefault, dfind?_cons, Option.or_assoc]
    congr 1
    by_cases hk : k = p.1
    · rw [if_pos hk, if_pos hk.symm]
      simp [Option.or]
    · rw [if_neg hk, if_neg (fun hc => hk hc.symm)]
      simp [Option.or]

/-- C3 corrected: the keyword fallback never overwrites the preferred-tag
merge — at every period key the result of `get_series_with_fallback` is the
merged value when the merge has that key, and otherwise the keyword-fallback
value (so fallback keys are added even when the merge is non-empty; when no
keywords are configured the result is exactly the merge). -/
theorem claim_C3_fallback_fills_gaps_only (cf : CompanyFacts) (preferred : List String)
    (keywords : List String) (pt : String) (d : Bool) (k : FKey) :
    dfind? (SecUtils.get_series_with_fallback cf preferred keywords pt d) k
      = (dfind? (SecUtils.merge_by_preference
            (SecUtils.build_tag_maps cf preferred pt d) preferred).2 k).or
          (if keywords.isEmpty then none
           else dfind? (SecUtils.keyword_fallback cf keywords pt d) k) := by
  unfold SecUtils.get_series_with_fallback
  by_cases hkw : keywords.isEmpty
  · rw [if_pos hkw, if_pos hkw, Option.or_none]
  · rw [if_neg hkw, if_neg hkw, dfind?_foldl_dsetdefault]

/-- The document for the C3 counterexample: the preferred tag `Revenues` has
FY2020 data, while the keyword-matching tag `SalesRevenueNet` also covers
FY2021. -/
def c3Cf : CompanyFacts :=
  ⟨[("Revenues", ⟨[("USD", [⟨some 2020, some "FY", some 5, some "2021-01-01"⟩])]⟩),
    ("SalesRevenueNet",
     ⟨[("USD", [⟨some 2020, some "FY", some 9, some "2021-01-01"⟩,
                ⟨some 2021, some "FY", some 7, some "2022-01-01"⟩])]⟩)]⟩

/-- C3 counterexample: the preferred-tag merge is non-empty, yet
`get_series_with_fallback` does not equal it — the keyword fallback adds the
period key (2021, FY) that the merge lacks. This falsifies "whenever the
merge is non-empty the result equals the merged series exactly, with no
period key added". -/
theorem claim_C3_counterexample :
    (SecUtils.merge_by_preference
        (SecUtils.build_tag_maps c3Cf ["Revenues"] "annual" true) ["Revenues"]).2 ≠ []
    ∧ SecUtils.get_series_with_fallback c3Cf ["Revenues"] ["sales"] "annual" true
        ≠ (SecUtils.merge_by_preference
            (SecUtils.build_tag_maps c3Cf ["Revenues"] "annual" true) ["Revenues"]).2
    ∧ dfind? (SecUtils.merge_by_preference
        (SecUtils.build_tag_maps c3Cf ["Revenues"] "annual" true) ["Revenues"]).2
        (2021, "FY") = none
    ∧ dfind? (SecUtils.get_series_with_fallback c3Cf ["Revenues"] ["sales"] "annual" true)
        (2021, "FY") = some 7 := by
  refine ⟨by decide, by decide, by decide, by decide⟩

/-! ## Keyword fallback matcher (C4) -/

/-- C4 corrected: the keyword fallback matcher treats a tag as a match exactly
when every required word is a case-insensitive substring of the tag name, and
returns the mapped series of the *first* matching tag (in sorted tag-name
enumeration order) whose extracted series is non-empty — not the match with
the most period keys; when no tag matches (or every match extracts an empty
series) it returns the empty map rather than an error. -/
theorem claim_C4_keyword_fallback_first_match (cf : CompanyFacts)
    (words : List String) (pt : String) (d : Bool) :
    ((∀ t ∈ SecFetch.list_available_tags cf,
        words.all (fun w => pySubstr (pyLower w) (pyLower t)) = false
          ∨ SecUtils.extractor_for cf pt t = []) →
      SecUtils.keyword_fallback cf words pt d = [])
    ∧ (∀ l1 t l2,
        SecFetch.list_available_tags cf = l1 ++ t :: l2 →
        (∀ t' ∈ l1,
          words.all (fun w => pySubstr (pyLower w) (pyLower t')) = false
            ∨ SecUtils.extractor_for cf pt t' = []) →
        words.all (fun w => pySubstr (pyLower w) (pyLower t)) = true →
        SecUtils.extractor_for cf pt t ≠ [] →
        SecUtils.keyword_fallback cf words pt d
          = SecUtils.series_to_map (SecUtils.extractor_for cf pt t) pt d) := by
  have hstep : ∀ t',
      words.all (fun w => pySubstr (pyLower w) (pyLower t')) = false
        ∨ SecUtils.extractor_for cf pt t' = [] →
      (fun t =>
        if words.all (fun w => pySubstr (pyLower w) (pyLower t)) = true then
          if (SecUtils.extractor_for cf pt t).isEmpty then none
          else some (SecUtils.series_to_map (SecUtils.extractor_for cf pt t) pt d)
        else none) t' = (none : Option (List (FKey × ℚ))) := by
    intro t' h
    rcases h with h | h
    · simp only [h]
      rfl
    · by_cases hm : words.all (fun w => pySubstr (pyLower w) (pyLower t')) = true
      · simp only [hm, if_true, h]
        rfl
      · simp only [hm]
        rfl
  constructor
  · intro hall
    show (List.findSome? (fun t =>
        if (words.all fun w => pySubstr (pyLower w) (pyLower t)) = true then
          if (SecUtils.extractor_for cf pt t).isEmpty = true then none
          else some (SecUtils.series_to_map (SecUtils.extractor_for cf pt t) pt d)
        else none) (SecFetch.list_available_tags cf)).getD [] = []
    rw [List.findSome?_eq_none_iff.mpr (fun t ht => hstep t (hall t ht))]
    rfl
  · intro l1 t l2 hdec hl1 hmatch hne
    show (List.findSome? (fun t =>
        if (words.all fun w => pySubstr (pyLower w) (pyLower t)) = true then
          if (SecUtils.extractor_for cf pt t).isEmpty = true then none
          else some (SecUtils.series_to_map (SecUtils.extractor_for cf pt t) pt d)
        else none) (SecFetch.list_available_tags cf)).getD []
      = SecUtils.series_to_map (SecUtils.extractor_for cf pt t) pt d
    rw [hdec]
    rw [List.findSome?_append, List.findSome?_eq_none_iff.mpr
      (fun t' ht' => hstep t' (hl1 t' ht')), List.findSome?_cons]
    have hempty : (SecUtils.extractor_for cf pt t).isEmpty = false := by
      cases hx : SecUtils.extractor_for cf pt t with
      | nil => exact absurd hx hne
      | cons a l => rfl
    simp only [hmatch, if_true, hempty, Bool.false_eq_true, if_false, Option.or]
    rfl

/-- The document for the C4 counterexample: both `Revenues` (one fiscal year)
and `TotalRevenues` (two fiscal years) match the keyword `revenue`;
enumeration order is sorted, so `Revenues` comes first. -/
def c4Cf : CompanyFacts :=
  ⟨[("Revenues", ⟨[("USD", [⟨some 2020, some "FY", some 5, some "2021-01-01"⟩])]⟩),
    ("TotalRevenues",
     ⟨[("USD", [⟨some 2020, some "FY", some 6, some "2021-01-01"⟩,
                ⟨some 2021, some "FY", some 8, some "2022-01-01"⟩])]⟩)]⟩

/-- C4 counterexample: the matching tag `TotalRevenues` produces two period
keys, yet the fallback returns the one-key series of the first matching tag
`Revenues` — falsifying "among all matching tags it returns the series of the
one producing the most period keys". -/
theorem claim_C4_counterexample :
    SecUtils.keyword_fallback c4Cf ["revenue"] "annual" true = [((2020, "FY"), 5)]
    ∧ (["revenue"].all fun w => pySubstr (pyLower w) (pyLower "TotalRevenues")) = true
    ∧ (SecUtils.series_to_map (SecUtils.extractor_for c4Cf "annual" "TotalRevenues")
        "annual" true).length = 2
    ∧ (SecUtils.keyword_fallback c4Cf ["revenue"] "annual" true).length = 1 := by
  refine ⟨by decide, by decide, by decide, by decide⟩

/-- Witness for the corrected C4 on the counterexample document: `Revenues`
is the first matching tag with data in the sorted enumeration, so its mapped
series is returned. -/
theorem claim_C4_keyword_fallback_first_match_witness :
    SecUtils.keyword_fallback c4Cf ["revenue"] "annual" true
      = SecUtils.series_to_map (SecUtils.extractor_for c4Cf "annual" "Revenues") "annual" true :=
  (claim_C4_keyword_fallback_first_match c4Cf ["revenue"] "annual" true).2
    [] "Revenues" ["TotalRevenues"] (by decide) (by simp) (by decide) (by decide)

/-! ## Unit selection (C5) -/

/-- C5 corrected: `_pick_unit` selects (a) the first present unit of an
explicit per-tag override when one applies; otherwise (b) the heuristic unit
(`shares` for share-like tag names, `USD` otherwise) when present; otherwise
(c) the *first* unit (in the units mapping's order) whose observation list is
non-empty — not the unit with the most observations — and `none` when even
that fails. -/
theorem claim_C5_pick_unit_priority (tag : String)
    (units : List (String × List SecFact)) :
    (∀ ov u, dfind? SecFetch.UNIT_BY_TAG tag = some ov →
      ov.find? (fun u' => dmem units u') = some u →
      SecFetch._pick_unit tag units = some u)
    ∧ ((dfind? SecFetch.UNIT_BY_TAG tag = none
          ∨ ∃ ov, dfind? SecFetch.UNIT_BY_TAG tag = some ov
              ∧ ov.find? (fun u' => dmem units u') = none) →
      (∀ u, ((dgetD SecFetch.UNIT_PRIORITY
            (if pySubstr "Share" tag || pySubstr "Shares" tag || pySubstr "shares" tag
             then "_shares" else "_money") []).find? (fun u' => dmem units u') = some u →
        SecFetch._pick_unit tag units = some u))
      ∧ ((dgetD SecFetch.UNIT_PRIORITY
            (if pySubstr "Share" tag || pySubstr "Shares" tag || pySubstr "shares" tag
             then "_shares" else "_money") []).find? (fun u' => dmem units u') = none →
        SecFetch._pick_unit tag units
          = (units.find? (fun p => !p.2.isEmpty)).map (·.1))) := by
  constructor
  · intro ov u hov hu
    unfold SecFetch._pick_unit
    rw [hov]
    simp only []
    rw [hu]
  · intro hov
    constructor
    · intro u hu
      unfold SecFetch._pick_unit
      rcases hov with hov | ⟨ov, hov, hmiss⟩
      · rw [hov]
        simp only []
        rw [hu]
      · rw [hov]
        simp only []
        rw [hmiss, hu]
    · intro hmissp
      unfold SecFetch._pick_unit
      rcases hov with hov | ⟨ov, hov, hmiss⟩
      · rw [hov]
        simp only []
        rw [hmissp]
      · rw [hov]
        simp only []
        rw [hmiss, hmissp]

/-- C5 counterexample: for a tag with no override and no USD/shares unit,
`_pick_unit` returns the first non-empty unit `EUR` (one observation) even
though `GBP` has more observations (two) — falsifying "otherwise the unit
with the most observations". -/
theorem claim_C5_counterexample :
    SecFetch._pick_unit "Foo"
        [("EUR", [⟨some 2020, some "FY", some 1, none⟩]),
         ("GBP", [⟨some 2020, some "FY", some 1, none⟩,
                  ⟨some 2021, some "FY", some 2, none⟩])]
      = some "EUR"
    ∧ (dgetD [("EUR", [(⟨some 2020, some "FY", some 1, none⟩ : SecFact)]),
         ("GBP", [⟨some 2020, some "FY", some 1, none⟩,
                  ⟨some 2021, some "FY", some 2, none⟩])] "GBP" []).length
      > (dgetD [("EUR", [(⟨some 2020, some "FY", some 1, none⟩ : SecFact)]),
         ("GBP", [⟨some 2020, some "FY", some 1, none⟩,
                  ⟨some 2021, some "FY", some 2, none⟩])] "EUR" []).length := by
  refine ⟨by decide, by decide⟩

/-- Witness for the corrected C5: the override path (a diluted-shares tag
picks `shares`), the heuristic path (a monetary tag picks `USD`), and the
first-non-empty fallback path (`EUR` before the better-covered `GBP`). -/
theorem claim_C5_pick_unit_priority_witness :
    SecFetch._pick_unit "WeightedAverageNumberOfDilutedSharesOutstanding"
        [("shares", [⟨some 2020, some "FY", some 1, none⟩])] = some "shares"
    ∧ SecFetch._pick_unit "Revenues"
        [("USD", [⟨some 2020, some "FY", some 1, none⟩]),
         ("EUR", [⟨some 2020, some "FY", some 1, none⟩])] = some "USD"
    ∧ SecFetch._pick_unit "Foo"
        [("EUR", [⟨some 2020, some "FY", some 1, none⟩]),
         ("GBP", [⟨some 2020, some "FY", some 1, none⟩,
                  ⟨some 2021, some "FY", some 2, none⟩])] = some "EUR" := by
  refine ⟨?_, ?_, ?_⟩
  · exact (claim_C5_pick_unit_priority "WeightedAverageNumberOfDilutedSharesOutstanding"
      [("shares", [⟨some 2020, some "FY", some 1, none⟩])]).1
      ["shares"] "shares" (by decide) (by decide)
  · exact ((claim_C5_pick_unit_priority "Revenues"
      [("USD", [⟨some 2020, some "FY", some 1, none⟩]),
       ("EUR", [⟨some 2020, some "FY", some 1, none⟩])]).2 (Or.inl (by decide))).1
      "USD" (by decide)
  · have h := ((claim_C5_pick_unit_priority "Foo"
      [("EUR", [⟨some 2020, some "FY", some 1, none⟩]),
       ("GBP", [⟨some 2020, some "FY", some 1, none⟩,
                ⟨some 2021, some "FY", some 2, none⟩])]).2 (Or.inl (by decide))).2
      (by decide)
    rw [h]
    decide

/-! ## Contact string / user agent (C8) -/

/-- C8 corrected: a missing or empty configured contact string is not fatal —
the `User-Agent` header is always a non-empty string: the pydantic default
`watchTower/0.1 (contact@example.com)` when `SEC_USER_AGENT` is absent, the
session fallback `watchTower/0.1 (unknown@unknown)` when it is set to the
empty string, and the configured string itself otherwise; requests proceed
under that substitute identity. -/
theorem claim_C8_substitute_user_agent (env : Option String) :
    Config.session_user_agent (Config.sec_user_agent_setting env) ≠ ""
    ∧ (env = none →
        Config.session_user_agent (Config.sec_user_agent_setting env)
          = "watchTower/0.1 (contact@example.com)")
    ∧ (env = some "" →
        Config.session_user_agent (Config.sec_user_agent_setting env)
          = "watchTower/0.1 (unknown@unknown)")
    ∧ (∀ s, s ≠ "" → env = some s →
        Config.session_user_agent (Config.sec_user_agent_setting env) = s) := by
  refine ⟨?_, ?_, ?_, ?_⟩
  · cases env with
    | none => decide
    | some s =>
      unfold Config.session_user_agent Config.sec_user_agent_setting
      by_cases hs : s = ""
      · subst hs; decide
      · simp only [Option.getD_some, hs, if_false]
        exact hs
  · intro h; subst h; decide
  · intro h; subst h; decide
  · intro s hs h
    subst h
    unfold Config.session_user_agent Config.sec_user_agent_setting
    simp only [Option.getD_some, hs, if_false]

/-- C8 counterexample: with no contact string configured, the process does
not fail — the fetch session carries the non-empty substitute identity
`watchTower/0.1 (contact@example.com)`, so requests are issued and companies
are processed; this falsifies "fatal at startup, no requests under a
substitute identity". -/
theorem claim_C8_counterexample :
    Config.session_user_agent (Config.sec_user_agent_setting none)
      = "watchTower/0.1 (contact@example.com)"
    ∧ Config.session_user_agent (Config.sec_user_agent_setting none) ≠ "" := by
  refine ⟨by decide, by decide⟩

/-- Witness for the corrected C8 at the concrete unconfigured input. -/
theorem claim_C8_substitute_user_agent_witness :
    Config.session_user_agent (Config.sec_user_agent_setting none) ≠ ""
    ∧ Config.session_user_agent (Config.sec_user_agent_setting none)
      = "watchTower/0.1 (contact@example.com)" :=
  ⟨(claim_C8_substitute_user_agent none).1,
   (claim_C8_substitute_user_agent none).2.1 rfl⟩

/-! ## Secondary-source row provenance (C9) -/

/-- C9 corrected: every row produced by the secondary (Yahoo) adapter carries
`source = "external_yahoo"` (not the literal `"secondary"`), which the upsert
writes through unchanged and which differs from the primary path's
`source = "sec"` — so provenance is distinguishable, under a different
marker string than the claim states. -/
theorem claim_C9_yahoo_rows_source (per_year : List (ℤ × List (String × Option ℚ)))
    (r : ExternalFinancials.YahooRow)
    (hr : r ∈ ExternalFinancials.yahoo_annual_rows per_year) :
    r.source = "external_yahoo"
    ∧ ExternalFinancials.upsert_row_source r = "external_yahoo"
    ∧ r.source ≠ ExternalFinancials.sec_row_source
    ∧ r.source ≠ "secondary" := by
  obtain ⟨p, _, hp⟩ := List.mem_map.mp hr
  have hsrc : r.source = "external_yahoo" := by rw [← hp]
  refine ⟨hsrc, ?_, ?_, ?_⟩
  · unfold ExternalFinancials.upsert_row_source
    rw [hsrc]
    decide
  · rw [hsrc]; decide
  · rw [hsrc]; decide

/-- C9 counterexample: a concrete secondary-adapter row carries the source
value `"external_yahoo"`, not `"secondary"`. -/
theorem claim_C9_counterexample :
    (ExternalFinancials.yahoo_annual_rows [(2020, [])]).map
        (fun r => r.source) = ["external_yahoo"]
    ∧ ("external_yahoo" : String) ≠ "secondary" := by
  refine ⟨by decide, by decide⟩

/-- Witness for the corrected C9 at a concrete row. -/
theorem claim_C9_yahoo_rows_source_witness :
    (⟨[], 2020, "FY", "external_yahoo"⟩ : ExternalFinancials.YahooRow).source
      = "external_yahoo"
    ∧ ExternalFinancials.upsert_row_source ⟨[], 2020, "FY", "external_yahoo"⟩
      = "external_yahoo" := by
  have h := claim_C9_yahoo_rows_source [(2020, [])] ⟨[], 2020, "FY", "external_yahoo"⟩
    (by decide)
  exact ⟨h.1, h.2.1⟩
